import Mathlib

/-!
Verification of the Rate-Limited Concurrent Retrieval Engine
(apps/filetypes/scraper/scripts/fetch_zyte_api.py).

The development shallowly embeds the script:

* JSON envelopes returned by the extraction API are modelled by `JVal`,
  with Python truthiness (`pyTruthy`) and dict lookup (`jget`).
* `b64decode` models Python `base64.b64decode` (non-validating mode:
  characters outside the base64 alphabet are discarded, the remaining
  stream must form complete 4-character groups, the last group may be
  completed by padding; otherwise the call fails).
* `decodeEnvelope` is the body-extraction logic of `fetch` (lines 58-85
  of the script), including the `try/except` around the base64 decode.
* The global throttle (`throttle`, lines 29-43) is embedded as a labelled
  transition system `TStep` over `TSys`: tasks acquire the asyncio lock,
  optionally sleep until the scheduled slot, update `_next_send_time`
  and return.  The embedding uses the standard cooperative/simulated-clock
  idealisation: synchronous code runs instantaneously and a sleep wakes
  exactly at its scheduled time (time may pass while a wake event is
  pending, but the event is stamped with its scheduled time).  Code with
  no await point between two actions is modelled as one atomic step.
* The worker pool (`main`/`run_one`, lines 87-108) is a second transition
  system `PStep` over `PSys`: a counting semaphore of `conc` permits, a
  per-task fetch pipeline (cache check, throttle, transport, decode,
  write) and a shared cache.  The transport and the filesystem are
  oracles fixed per run; `sha1(url)[:16]` is modelled by an abstract
  key function (spec section 3 treats the digest as injective up to
  negligible collisions, which theorems take as a hypothesis).
* The retry behaviour of `httpx.AsyncHTTPTransport(retries=3)` lives in
  the httpx library, outside this repository; `sendWithRetries` is
  modelled from the spec (section 4.3).
-/

namespace ZyteFetch

/-! ## JSON values and Python-style helpers -/

/-- A JSON value as produced by `r.json()`.  Numbers are modelled as
integers (no claim involves numeric envelope fields). -/
inductive JVal where
  | jstr (s : String)
  | jnum (n : Int)
  | jbool (b : Bool)
  | jnull
  | jarr (items : List JVal)
  | jobj (fields : List (String × JVal))
  deriving Repr

/-- Python truthiness of a JSON value (used by `if not body_b64` and by
`x or y`). -/
def pyTruthy : JVal → Bool
  | .jstr s => !s.isEmpty
  | .jnum n => n != 0
  | .jbool b => b
  | .jnull => false
  | .jarr items => !items.isEmpty
  | .jobj fields => !fields.isEmpty

/-- Truthiness of an optional value: Python `None` is falsy. -/
def pyTruthyO : Option JVal → Bool
  | none => false
  | some v => pyTruthy v

/-- Python `a or b` on optional values: yields `a` when `a` is truthy,
otherwise `b` (even when `b` is falsy). -/
def pyOr (a b : Option JVal) : Option JVal :=
  if pyTruthyO a then a else b

/-- Dict lookup, `d.get(k)`: first binding of the key, if any. -/
def jget (fields : List (String × JVal)) (k : String) : Option JVal :=
  (fields.find? (fun p => p.1 == k)).map Prod.snd

/-- Membership test `k in d` for a dict. -/
def jmem (fields : List (String × JVal)) (k : String) : Bool :=
  (jget fields k).isSome

/-- Python slicing `s[:n]`: the first n characters. -/
def pyTake (n : Nat) (s : String) : String :=
  ⟨s.data.take n⟩

/-! ## UTF-8 encoding (Python `str.encode()`) -/

/-- UTF-8 encoding of one code point. -/
def utf8Char (c : Char) : List Nat :=
  let n := c.toNat
  if n < 128 then [n]
  else if n < 2048 then [192 + n / 64, 128 + n % 64]
  else if n < 65536 then [224 + n / 4096, 128 + n / 64 % 64, 128 + n % 64]
  else [240 + n / 262144, 128 + n / 4096 % 64, 128 + n / 64 % 64, 128 + n % 64]

/-- UTF-8 encoding of a string, as a list of byte values: `s.encode()`. -/
def utf8 (s : String) : List Nat :=
  (s.data.map utf8Char).flatten

/-! ## base64 (Python `base64.b64decode`) -/

/-- Is the character in the standard base64 alphabet? -/
def isB64Char (c : Char) : Bool :=
  (65 ≤ c.toNat && c.toNat ≤ 90) || (97 ≤ c.toNat && c.toNat ≤ 122) ||
  (48 ≤ c.toNat && c.toNat ≤ 57) || c == '+' || c == '/'

/-- Value of a base64 alphabet character. -/
def b64Val (c : Char) : Nat :=
  if 65 ≤ c.toNat && c.toNat ≤ 90 then c.toNat - 65
  else if 97 ≤ c.toNat && c.toNat ≤ 122 then c.toNat - 71
  else if 48 ≤ c.toNat && c.toNat ≤ 57 then c.toNat + 4
  else if c == '+' then 62
  else 63

/-- Turn a list of sextet values into bytes; a trailing group of two or
three sextets (completed by padding) contributes one or two bytes. -/
def bytesOfSextets : List Nat → List Nat
  | a :: b :: c :: d :: rest =>
      (a * 4 + b / 16) :: (b % 16 * 16 + c / 4) :: (c % 4 * 64 + d) :: bytesOfSextets rest
  | [a, b] => [a * 4 + b / 16]
  | [a, b, c] => [a * 4 + b / 16, b % 16 * 16 + c / 4]
  | _ => []

/-- Model of Python `base64.b64decode` (default non-validating mode):
characters outside the alphabet are discarded; the data before the first
padding character must consist of complete 4-character groups, except
that a final group of 2 or 3 characters may be completed by enough
padding; anything after valid padding is ignored; otherwise the call
raises (modelled as `none`). -/
def b64decode (s : String) : Option (List Nat) :=
  let cs := s.data.filter (fun c => isB64Char c || c == '=')
  let data := cs.takeWhile (fun c => c != '=')
  let pads := ((cs.drop data.length).takeWhile (fun c => c == '=')).length
  match data.length % 4 with
  | 0 => some (bytesOfSextets (data.map b64Val))
  | 2 => if 2 ≤ pads then some (bytesOfSextets (data.map b64Val)) else none
  | 3 => if 1 ≤ pads then some (bytesOfSextets (data.map b64Val)) else none
  | _ => none

/-! ## JSON serialisation (Python `json.dumps(data, indent=2)`) -/

/-- Lowercase hexadecimal digit. -/
def hexDigit (n : Nat) : Char :=
  if n < 10 then Char.ofNat (48 + n) else Char.ofNat (87 + n)

/-- Four lowercase hex digits of a 16-bit value. -/
def u16hex (n : Nat) : String :=
  ⟨[hexDigit (n / 4096 % 16), hexDigit (n / 256 % 16), hexDigit (n / 16 % 16), hexDigit (n % 16)]⟩

/-- JSON string escaping of one character, following `json.dumps` with
its default `ensure_ascii=True` (non-ASCII code points become escapes,
astral code points become surrogate pairs). -/
def escChar (c : Char) : String :=
  if c == '"' then "\\\""
  else if c == '\\' then "\\\\"
  else if c == '\n' then "\\n"
  else if c == '\t' then "\\t"
  else if c == '\r' then "\\r"
  else if c.toNat == 8 then "\\b"
  else if c.toNat == 12 then "\\f"
  else if c.toNat < 32 || 126 < c.toNat then
    if c.toNat < 65536 then "\\u" ++ u16hex c.toNat
    else
      let m := c.toNat - 65536
      "\\u" ++ u16hex (55296 + m / 1024) ++ "\\u" ++ u16hex (56320 + m % 1024)
  else ⟨[c]⟩

/-- JSON string quoting. -/
def jquote (s : String) : String :=
  "\"" ++ String.join (s.data.map escChar) ++ "\""

/-- A run of spaces (indentation). -/
def spaces (n : Nat) : String :=
  ⟨List.replicate n ' '⟩

mutual

/-- Serialisation of a JSON value at a given indentation level, in the
format of `json.dumps(v, indent=2)`. -/
def jser (ind : Nat) : JVal → String
  | .jstr s => jquote s
  | .jnum n => toString n
  | .jbool b => if b then "true" else "false"
  | .jnull => "null"
  | .jarr [] => "[]"
  | .jarr (v :: vs) =>
      "[\n" ++ jserItems (ind + 2) (v :: vs) ++ "\n" ++ spaces ind ++ "]"
  | .jobj [] => "\x7b\x7d"
  | .jobj (f :: fs) =>
      "\x7b\n" ++ jserFields (ind + 2) (f :: fs) ++ "\n" ++ spaces ind ++ "\x7d"

/-- Serialisation of the fields of a JSON object, comma-and-newline
separated, each on its own indented line. -/
def jserFields (ind : Nat) : List (String × JVal) → String
  | [] => ""
  | [(k, v)] => spaces ind ++ jquote k ++ ": " ++ jser ind v
  | (k, v) :: f :: fs =>
      spaces ind ++ jquote k ++ ": " ++ jser ind v ++ ",\n" ++ jserFields ind (f :: fs)

/-- Serialisation of the items of a JSON array. -/
def jserItems (ind : Nat) : List JVal → String
  | [] => ""
  | [v] => spaces ind ++ jser ind v
  | v :: w :: vs => spaces ind ++ jser ind v ++ ",\n" ++ jserItems ind (w :: vs)

end

/-- `json.dumps(data, indent=2)`. -/
def jdumps (v : JVal) : String :=
  jser 0 v

/-! ## The response decoder (script lines 58-85)

The body of `fetch` after `data = r.json()`:

* a string response prints a warning (first 100 characters) and returns;
* `body_b64` is taken from `httpResponseBody` when that is a string, or
  from its `data`/`text` sub-field when it is a dict;
* a falsy `body_b64` falls back to `browserHtml` when present;
* a still-falsy `body_b64` prints a warning with the first 500 characters
  of `json.dumps(data, indent=2)` and returns;
* otherwise `base64.b64decode(body_b64)` is attempted, falling back to
  `body_b64.encode()` on any exception, and the result is written.

Membership (`k in data`) and subscription on non-dict, non-sequence
values raise `TypeError`, which escapes `fetch` and is caught by
`run_one`; those paths are modelled by `DecodeRes.raised`. -/

/-- Steps 1-2 of the decoding policy: the value of `body_b64` computed
from the `httpResponseBody` field alone (script lines 63-68). -/
def hrbExtract (fields : List (String × JVal)) : Option JVal :=
  match jget fields "httpResponseBody" with
  | some (.jstr s) => some (.jstr s)
  | some (.jobj o) => pyOr (jget o "data") (jget o "text")
  | _ => none

/-- The value of `body_b64` after the `browserHtml` fallback (script
lines 70-71): the rendered page is consulted only when the body from
steps 1-2 is falsy. -/
def bodySelected (fields : List (String × JVal)) : Option JVal :=
  let b := hrbExtract fields
  if pyTruthyO b then b
  else
    match jget fields "browserHtml" with
    | some v => some v
    | none => b

/-- The `try/except` around the base64 transform (script lines 79-82):
decode the string as base64, falling back to its raw UTF-8 bytes when
the transform raises. -/
def b64OrRaw (s : String) : List Nat :=
  (b64decode s).getD (utf8 s)

/-- Result of the decoding part of `fetch`. -/
inductive DecodeRes where
  | warnString (preview : String)
  | warnNoBody (preview : String)
  | content (bytes : List Nat)
  | raised
  deriving Repr, DecidableEq

/-- The decoding logic of `fetch` applied to the parsed response
(script lines 58-85).  For an array response, `k in data` is element
membership and a subsequent `data[k]` raises `TypeError`; for a number,
boolean or null response, `k in data` itself raises `TypeError`. -/
def decodeEnvelope : JVal → DecodeRes
  | .jstr s => .warnString (pyTake 100 s)
  | .jobj fields =>
      match bodySelected fields with
      | some (.jstr s) =>
          if s.isEmpty then .warnNoBody (pyTake 500 (jdumps (.jobj fields)))
          else .content (b64OrRaw s)
      | some v =>
          if pyTruthy v then .raised
          else .warnNoBody (pyTake 500 (jdumps (.jobj fields)))
      | none => .warnNoBody (pyTake 500 (jdumps (.jobj fields)))
  | .jarr items =>
      if items.any (fun v => match v with | .jstr s => s == "httpResponseBody" | _ => false) then
        .raised
      else if items.any (fun v => match v with | .jstr s => s == "browserHtml" | _ => false) then
        .raised
      else .warnNoBody (pyTake 500 (jdumps (.jarr items)))
  | .jnum _ => .raised
  | .jbool _ => .raised
  | .jnull => .raised

/-! ## One task, as a pure function of its own inputs

Per spec section 4.5, a task runs Cache, Throttle, Transport, Decoder,
Persist; `run_one` catches every exception and prints a line starting
with a tag.  Given the task's own inputs (whether its cache entry was
present and non-empty, the transport result, whether the write
succeeds), the terminal outcome is a pure function. -/

/-- Transport failure as observed by `run_one` (script lines 100-105):
`raise_for_status` yields `httpx.HTTPStatusError`, anything else in the
network stack is a generic exception. -/
inductive TErr where
  | httpStatus (code : Nat)
  | network
  deriving Repr, DecidableEq

/-- Terminal outcome of one task. -/
inductive Outcome where
  | skipped
  | success
  | warnedString (preview : String)
  | warnedNoBody (preview : String)
  | failedTransport (e : TErr)
  | failedDecode
  | failedWrite
  deriving Repr, DecidableEq

/-- The outcome of one task as the pure function of its own inputs.
`cached` is the cache check at entry; `resp` the transport result
(response already parsed); `wOk` whether the filesystem write succeeds. -/
def runOnePure (cached : Bool) (resp : Except TErr JVal) (wOk : Bool) : Outcome :=
  if cached then .skipped
  else
    match resp with
    | .error e => .failedTransport e
    | .ok env =>
        match decodeEnvelope env with
        | .warnString p => .warnedString p
        | .warnNoBody p => .warnedNoBody p
        | .raised => .failedDecode
        | .content _ => if wOk then .success else .failedWrite

/-- The bytes a task writes to its cache entry, if any. -/
def fetchWrite (cached : Bool) (resp : Except TErr JVal) (wOk : Bool) : Option (List Nat) :=
  if cached then none
  else
    match resp with
    | .error _ => none
    | .ok env =>
        match decodeEnvelope env with
        | .content bs => if wOk then some bs else none
        | _ => none

/-- The tag `run_one` prints for an outcome (script lines 100-105):
exceptions print a line starting with "fail:", every other path prints a
line starting with "ok  :". -/
def printedTag : Outcome → String
  | .failedTransport _ => "fail:"
  | .failedDecode => "fail:"
  | .failedWrite => "fail:"
  | _ => "ok  :"

/-! ## The global throttle (script lines 26-43)

```python
_throttle_lock = asyncio.Lock()
_next_send_time = time.monotonic()

async def throttle():
    global _next_send_time
    async with _throttle_lock:
        now = time.monotonic()
        wait = max(0.0, _next_send_time - now)
        if wait > 0:
            await asyncio.sleep(wait)
        gap = MIN_INTERVAL
        if JITTER:
            gap += random.uniform(0, JITTER)
        _next_send_time = max(now, _next_send_time) + gap
```

Embedding: `n` tasks each call `throttle()` once; `gap i` is the gap
computed by task i (`MIN_INTERVAL` plus its jitter draw, so the theorems
assume `I ≤ gap i`).  Time is a rational monotonic clock.  Under the
cooperative, simulated-clock idealisation, code between two awaits runs
atomically:

* when the lock is free and `wait ≤ 0`, the whole body (acquire, read
  `now`, update, release, return) has no suspension point and is one
  step, authorised at the current time;
* when `wait > 0`, acquiring the lock and reading `now` is one step that
  leaves the task asleep holding the lock; the sleep wakes exactly at
  `now + wait = max(now, next_send_time)`, and waking, updating
  `_next_send_time`, releasing and returning is one step stamped with
  that wake time (the clock may meanwhile run ahead, the model only
  requires it to have reached the wake time). -/

/-- Where one task is in its single `throttle()` call.  `finished auth`
records the authorization timestamp: the time at which the call
returned. -/
inductive TState where
  | idle
  | sleeping (now : ℚ)
  | finished (auth : ℚ)
  deriving Repr, DecidableEq

/-- Global state of the throttle system: the monotonic clock, the
asyncio lock (`none` = unlocked), `_next_send_time`, and every task's
position. -/
structure TSys (n : ℕ) where
  time : ℚ
  lock : Option (Fin n)
  nst : ℚ
  tstate : Fin n → TState

/-- One interleaving step of the throttle system. -/
inductive TStep {n : ℕ} (gap : Fin n → ℚ) : TSys n → TSys n → Prop
  | tick (s : TSys n) (d : ℚ) (hd : 0 ≤ d) :
      TStep gap s { s with time := s.time + d }
  | acquireNoWait (s : TSys n) (i : Fin n)
      (hidle : s.tstate i = .idle) (hlock : s.lock = none) (hle : s.nst ≤ s.time) :
      TStep gap s
        { s with
          nst := max s.time s.nst + gap i,
          tstate := Function.update s.tstate i (.finished s.time) }
  | acquireSleep (s : TSys n) (i : Fin n)
      (hidle : s.tstate i = .idle) (hlock : s.lock = none) (hlt : s.time < s.nst) :
      TStep gap s
        { s with
          lock := some i,
          tstate := Function.update s.tstate i (.sleeping s.time) }
  | wake (s : TSys n) (i : Fin n) (now : ℚ)
      (hsl : s.tstate i = .sleeping now) (ht : max now s.nst ≤ s.time) :
      TStep gap s
        { s with
          lock := none,
          nst := max now s.nst + gap i,
          tstate := Function.update s.tstate i (.finished (max now s.nst)) }

/-- Executions: reflexive-transitive closure of `TStep`. -/
def TReaches {n : ℕ} (gap : Fin n → ℚ) : TSys n → TSys n → Prop :=
  Relation.ReflTransGen (TStep gap)

/-- Initial state: `_next_send_time = time.monotonic()` at module load,
lock free, no task has entered the throttle. -/
def tinit (n : ℕ) (t0 : ℚ) : TSys n :=
  { time := t0, lock := none, nst := t0, tstate := fun _ => .idle }

/-- Inductive invariant of the throttle system for a minimum interval
`I`: a sleeping task holds the lock and sleeps toward a strictly later
slot; an authorization timestamp is at least `I` before the next slot
and never in the clock's future; two authorization timestamps are at
least `I` apart. -/
def TInv {n : ℕ} (I : ℚ) (s : TSys n) : Prop :=
  (∀ i now, s.tstate i = .sleeping now → s.lock = some i ∧ now < s.nst) ∧
  (∀ i a, s.tstate i = .finished a → a ≤ s.time ∧ a + I ≤ s.nst) ∧
  (∀ i j a b, i ≠ j → s.tstate i = .finished a → s.tstate j = .finished b →
    a + I ≤ b ∨ b + I ≤ a)

/-! ## The worker pool (script lines 87-108)

```python
sem = asyncio.Semaphore(CONCURRENCY)

async def run_one(u):
    async with sem:
        try:
            await fetch(client, u)
            print("ok  :", u)
        except httpx.HTTPStatusError as e:
            print("fail:", u, "-", e.response.status_code, e)
        except Exception as e:
            print("fail:", u, "-", e)

await asyncio.gather(*(run_one(u) for u in urls))
```

Embedding: an interleaving transition system with one task per URL.  A
task acquires a semaphore permit, checks its cache entry, takes a
throttle turn (the throttle's timing is verified separately above; here
it is a pass-through step), performs the transport exchange, decodes,
writes, and releases its permit; every exception is caught at the task
boundary.  The transport result per URL and the success of the
filesystem write per URL are oracles fixed for the run; the cache key
function `sha1(url)[:16]` is an abstract parameter. -/

/-- Fixed parameters of one run of the engine. -/
structure PParams (n : ℕ) where
  tgt : Fin n → String
  key : String → String
  oracle : String → Except TErr JVal
  wOk : String → Bool
  conc : ℕ
  cache0 : String → Option (List Nat)

/-- Where one pool task is in `run_one`/`fetch`. -/
inductive TaskSt where
  | pending
  | cacheCheck
  | throttling
  | sending
  | writing (bytes : List Nat)
  | completed (o : Outcome)
  deriving Repr, DecidableEq

/-- Global state of the pool: free semaphore permits, every task's
position, the cache (key to raw bytes), and the number of transport
calls issued so far in this run. -/
structure PSys (n : ℕ) where
  avail : ℕ
  task : Fin n → TaskSt
  cache : String → Option (List Nat)
  sent : ℕ

/-- The cache check of `fetch` (script line 47): the entry exists and
has non-zero size. -/
def hasEntry : Option (List Nat) → Bool
  | none => false
  | some bs => !bs.isEmpty

/-- One interleaving step of the pool system. -/
inductive PStep {n : ℕ} (p : PParams n) : PSys n → PSys n → Prop
  | start (s : PSys n) (i : Fin n)
      (h : s.task i = .pending) (ha : 0 < s.avail) :
      PStep p s
        { s with avail := s.avail - 1, task := Function.update s.task i .cacheCheck }
  | hit (s : PSys n) (i : Fin n)
      (h : s.task i = .cacheCheck)
      (hc : hasEntry (s.cache (p.key (p.tgt i))) = true) :
      PStep p s
        { s with avail := s.avail + 1,
                 task := Function.update s.task i (.completed .skipped) }
  | miss (s : PSys n) (i : Fin n)
      (h : s.task i = .cacheCheck)
      (hc : hasEntry (s.cache (p.key (p.tgt i))) = false) :
      PStep p s { s with task := Function.update s.task i .throttling }
  | send (s : PSys n) (i : Fin n)
      (h : s.task i = .throttling) :
      PStep p s
        { s with task := Function.update s.task i .sending, sent := s.sent + 1 }
  | recvErr (s : PSys n) (i : Fin n) (e : TErr)
      (h : s.task i = .sending) (ho : p.oracle (p.tgt i) = .error e) :
      PStep p s
        { s with avail := s.avail + 1,
                 task := Function.update s.task i (.completed (.failedTransport e)) }
  | recvBody (s : PSys n) (i : Fin n) (env : JVal) (bs : List Nat)
      (h : s.task i = .sending) (ho : p.oracle (p.tgt i) = .ok env)
      (hd : decodeEnvelope env = .content bs) :
      PStep p s { s with task := Function.update s.task i (.writing bs) }
  | recvWarnStr (s : PSys n) (i : Fin n) (env : JVal) (pre : String)
      (h : s.task i = .sending) (ho : p.oracle (p.tgt i) = .ok env)
      (hd : decodeEnvelope env = .warnString pre) :
      PStep p s
        { s with avail := s.avail + 1,
                 task := Function.update s.task i (.completed (.warnedString pre)) }
  | recvWarnNoBody (s : PSys n) (i : Fin n) (env : JVal) (pre : String)
      (h : s.task i = .sending) (ho : p.oracle (p.tgt i) = .ok env)
      (hd : decodeEnvelope env = .warnNoBody pre) :
      PStep p s
        { s with avail := s.avail + 1,
                 task := Function.update s.task i (.completed (.warnedNoBody pre)) }
  | recvRaised (s : PSys n) (i : Fin n) (env : JVal)
      (h : s.task i = .sending) (ho : p.oracle (p.tgt i) = .ok env)
      (hd : decodeEnvelope env = .raised) :
      PStep p s
        { s with avail := s.avail + 1,
                 task := Function.update s.task i (.completed .failedDecode) }
  | writeOk (s : PSys n) (i : Fin n) (bs : List Nat)
      (h : s.task i = .writing bs) (hw : p.wOk (p.tgt i) = true) :
      PStep p s
        { s with avail := s.avail + 1,
                 task := Function.update s.task i (.completed .success),
                 cache := Function.update s.cache (p.key (p.tgt i)) (some bs) }
  | writeFail (s : PSys n) (i : Fin n) (bs : List Nat)
      (h : s.task i = .writing bs) (hw : p.wOk (p.tgt i) = false) :
      PStep p s
        { s with avail := s.avail + 1,
                 task := Function.update s.task i (.completed .failedWrite) }

/-- Executions of the pool. -/
def PReaches {n : ℕ} (p : PParams n) : PSys n → PSys n → Prop :=
  Relation.ReflTransGen (PStep p)

/-- Initial state of a run: all permits free, all tasks pending, the
cache as found on disk, no transport call issued. -/
def pinit {n : ℕ} (p : PParams n) : PSys n :=
  { avail := p.conc, task := fun _ => .pending, cache := p.cache0, sent := 0 }

/-- Does this task state hold a semaphore permit? -/
def isHolding : TaskSt → Bool
  | .cacheCheck => true
  | .throttling => true
  | .sending => true
  | .writing _ => true
  | _ => false

/-- Is this task's transport call currently open? -/
def isSending : TaskSt → Bool
  | .sending => true
  | _ => false

/-- Has this task reached a terminal outcome? -/
def isCompleted : TaskSt → Bool
  | .completed _ => true
  | _ => false

/-- Number of tasks whose state satisfies a predicate. -/
def cnt {n : ℕ} (f : Fin n → TaskSt) (q : TaskSt → Bool) : ℕ :=
  ∑ j : Fin n, if q (f j) then 1 else 0

/-- Key injectivity across the run's targets: spec section 3 accepts the
truncated digest as collision-free. -/
def KeyInj {n : ℕ} (p : PParams n) : Prop :=
  ∀ a b : Fin n, p.key (p.tgt a) = p.key (p.tgt b) → a = b

/-- Per-task inductive invariant: before its own write, a task's cache
entry is as it was initially; past the cache check it saw a missing or
empty entry; a writing task carries the bytes decoded from its own
transport response; a completed task carries exactly the outcome
determined by its own inputs. -/
def TaskInv {n : ℕ} (p : PParams n) (s : PSys n) (i : Fin n) : Prop :=
  match s.task i with
  | .pending => s.cache (p.key (p.tgt i)) = p.cache0 (p.key (p.tgt i))
  | .cacheCheck => s.cache (p.key (p.tgt i)) = p.cache0 (p.key (p.tgt i))
  | .throttling =>
      s.cache (p.key (p.tgt i)) = p.cache0 (p.key (p.tgt i)) ∧
      hasEntry (p.cache0 (p.key (p.tgt i))) = false
  | .sending =>
      s.cache (p.key (p.tgt i)) = p.cache0 (p.key (p.tgt i)) ∧
      hasEntry (p.cache0 (p.key (p.tgt i))) = false
  | .writing bs =>
      s.cache (p.key (p.tgt i)) = p.cache0 (p.key (p.tgt i)) ∧
      hasEntry (p.cache0 (p.key (p.tgt i))) = false ∧
      ∃ env, p.oracle (p.tgt i) = .ok env ∧ decodeEnvelope env = .content bs
  | .completed o =>
      o = runOnePure (hasEntry (p.cache0 (p.key (p.tgt i)))) (p.oracle (p.tgt i))
            (p.wOk (p.tgt i))

/-- Semaphore accounting: free permits plus held permits equal the
configured concurrency. -/
def PSem {n : ℕ} (p : PParams n) (s : PSys n) : Prop :=
  s.avail + cnt s.task isHolding = p.conc

/-- Determinacy invariant: every task's invariant holds. -/
def PDet {n : ℕ} (p : PParams n) (s : PSys n) : Prop :=
  ∀ i, TaskInv p s i

/-- Invariant for a run whose cache is fully populated at start: nothing
is ever sent, the cache is never touched, and every task only ever
short-circuits. -/
def C2Inv {n : ℕ} (p : PParams n) (s : PSys n) : Prop :=
  s.sent = 0 ∧ s.cache = p.cache0 ∧
  ∀ i, s.task i = .pending ∨ s.task i = .cacheCheck ∨ s.task i = .completed .skipped

/-- Remaining progress of one task (for the completion argument). -/
def weight : TaskSt → ℕ
  | .pending => 5
  | .cacheCheck => 4
  | .throttling => 3
  | .sending => 2
  | .writing _ => 1
  | .completed _ => 0

/-- Total remaining progress of the pool. -/
def pmeasure {n : ℕ} (s : PSys n) : ℕ :=
  ∑ j : Fin n, weight (s.task j)

/-! ## The transport layer (spec section 4.3)

Modelled from the spec: the retry behaviour configured by
`httpx.AsyncHTTPTransport(retries=3)` (script line 91) is implemented
inside the httpx library, outside this repository.  Per spec section
4.3, the transport performs up to a bounded number of automatic retries
on transient failures (connection resets, 5xx responses, timeouts),
does not retry 4xx client errors, and surfaces at most one failure per
send to the pool. -/

/-- Transient failures, which the transport retries. -/
inductive TransientErr where
  | connReset
  | serverErr5xx (code : Nat)
  | timedOut
  deriving Repr, DecidableEq

/-- Result of one attempt of the transport. -/
inductive AttemptResult where
  | ok (env : JVal)
  | transient (e : TransientErr)
  | clientErr4xx (code : Nat)
  deriving Repr

/-- The single failure the transport surfaces after its internal
retries are exhausted. -/
inductive SendFail where
  | transient (e : TransientErr)
  | client4xx (code : Nat)
  deriving Repr, DecidableEq

/-- The retry count configured in the script (line 91). -/
def RETRIES : ℕ := 3

/-- Modelled from the spec (section 4.3): the transport's send loop.
`attempts k` is the result of the k-th attempt; `budget` is the number
of retries still allowed.  A success or a 4xx client error ends the
loop at once; a transient failure is retried while budget remains.
Returns the surfaced result and the number of attempts consumed. -/
def sendWithRetries (attempts : ℕ → AttemptResult) :
    ℕ → ℕ → Except SendFail JVal × ℕ
  | budget, k =>
    match attempts k with
    | .ok env => (Except.ok env, 1)
    | .clientErr4xx c => (Except.error (SendFail.client4xx c), 1)
    | .transient e =>
      match budget with
      | 0 => (Except.error (SendFail.transient e), 1)
      | b + 1 =>
        let r := sendWithRetries attempts b (k + 1)
        (r.1, r.2 + 1)

/-- How many failures a send surfaces to the pool. -/
def surfacedFailures : Except SendFail JVal → ℕ
  | .error _ => 1
  | .ok _ => 0

/-! ## Concrete executions used by witnesses -/

/-- A one-task demonstration run for the pool: one URL, a successful
transport returning a base64 body, a working filesystem, concurrency 1,
empty cache.  The key function is the identity (standing in for the
injective truncated digest). -/
def pdemo : PParams 1 :=
  { tgt := fun _ => "http://x/1"
    key := fun u => u
    oracle := fun _ => .ok (.jobj [("httpResponseBody", .jstr "aGVsbG8=")])
    wOk := fun _ => true
    conc := 1
    cache0 := fun _ => none }

/-- The same run with the cache entry for the target already present
and non-empty. -/
def pdemoCached : PParams 1 :=
  { tgt := fun _ => "http://x/1"
    key := fun u => u
    oracle := fun _ => .ok (.jobj [("httpResponseBody", .jstr "aGVsbG8=")])
    wOk := fun _ => true
    conc := 1
    cache0 := fun _ => some [104, 101, 108, 108, 111] }

/-- Demo run: task 0 took the semaphore permit. -/
def pd1 : PSys 1 :=
  ⟨1 - 1, Function.update (fun _ => TaskSt.pending) 0 TaskSt.cacheCheck, fun _ => none, 0⟩

/-- Demo run: cache miss, ready to throttle. -/
def pd2 : PSys 1 :=
  ⟨1 - 1,
    Function.update (Function.update (fun _ => TaskSt.pending) 0 TaskSt.cacheCheck) 0
      TaskSt.throttling,
    fun _ => none, 0⟩

/-- Demo run: transport call open. -/
def pd3 : PSys 1 :=
  ⟨1 - 1,
    Function.update
      (Function.update (Function.update (fun _ => TaskSt.pending) 0 TaskSt.cacheCheck) 0
        TaskSt.throttling) 0
      TaskSt.sending,
    fun _ => none, 0 + 1⟩

/-- Demo run: body decoded, ready to write. -/
def pd4 : PSys 1 :=
  ⟨1 - 1,
    Function.update
      (Function.update
        (Function.update (Function.update (fun _ => TaskSt.pending) 0 TaskSt.cacheCheck) 0
          TaskSt.throttling) 0
        TaskSt.sending) 0
      (TaskSt.writing (b64OrRaw "aGVsbG8=")),
    fun _ => none, 0 + 1⟩

/-- Demo run: task 0 completed successfully, entry cached. -/
def pd5 : PSys 1 :=
  ⟨1 - 1 + 1,
    Function.update
      (Function.update
        (Function.update
          (Function.update (Function.update (fun _ => TaskSt.pending) 0 TaskSt.cacheCheck) 0
            TaskSt.throttling) 0
          TaskSt.sending) 0
        (TaskSt.writing (b64OrRaw "aGVsbG8="))) 0
      (TaskSt.completed Outcome.success),
    Function.update (fun _ => none) (pdemo.key (pdemo.tgt 0)) (some (b64OrRaw "aGVsbG8=")),
    0 + 1⟩

/-- Cached demo run: task 0 took the permit. -/
def pc1 : PSys 1 :=
  ⟨1 - 1, Function.update (fun _ => TaskSt.pending) 0 TaskSt.cacheCheck,
    fun _ => some [104, 101, 108, 108, 111], 0⟩

/-- Cached demo run: task 0 short-circuited as skipped. -/
def pc2 : PSys 1 :=
  ⟨1 - 1 + 1,
    Function.update (Function.update (fun _ => TaskSt.pending) 0 TaskSt.cacheCheck) 0
      (TaskSt.completed Outcome.skipped),
    fun _ => some [104, 101, 108, 108, 111], 0⟩


/-- Unit gaps for the two-task witness run. -/
def gap2 : Fin 2 → ℚ := fun _ => 1

/-- Unit gaps for the three-task witness run. -/
def gap3 : Fin 3 → ℚ := fun _ => 1

/-- Two-task run: state after task 0 is authorized at time 0. -/
def w2a : TSys 2 :=
  ⟨0, none, max 0 0 + 1, Function.update (fun _ => TState.idle) 0 (TState.finished 0)⟩

/-- Two-task run: one time unit later. -/
def w2b : TSys 2 :=
  ⟨0 + 1, none, max 0 0 + 1, Function.update (fun _ => TState.idle) 0 (TState.finished 0)⟩

/-- Two-task run: state after task 1 is authorized at time 1. -/
def w2c : TSys 2 :=
  ⟨0 + 1, none, max (0 + 1) (max 0 0 + 1) + 1,
    Function.update (Function.update (fun _ => TState.idle) 0 (TState.finished 0)) 1
      (TState.finished (0 + 1))⟩

/-- Three-task run: state after task 2 is authorized at time 0. -/
def w3a : TSys 3 :=
  ⟨0, none, max 0 0 + 1, Function.update (fun _ => TState.idle) 2 (TState.finished 0)⟩

/-- Three-task run: task 0 now asleep inside the throttle, holding the
lock. -/
def w3b : TSys 3 :=
  ⟨0, some 0, max 0 0 + 1,
    Function.update (Function.update (fun _ => TState.idle) 2 (TState.finished 0)) 0
      (TState.sleeping 0)⟩

/-- Three-task run: one time unit later, task 0 still asleep. -/
def w3c : TSys 3 :=
  ⟨0 + 1, some 0, max 0 0 + 1,
    Function.update (Function.update (fun _ => TState.idle) 2 (TState.finished 0)) 0
      (TState.sleeping 0)⟩

/-- Three-task run: task 0 woken and authorized at its slot. -/
def w3d : TSys 3 :=
  ⟨0 + 1, none, max 0 (max 0 0 + 1) + 1,
    Function.update
      (Function.update (Function.update (fun _ => TState.idle) 2 (TState.finished 0)) 0
        (TState.sleeping 0)) 0
      (TState.finished (max 0 (max 0 0 + 1)))⟩

/-- Three-task run: one more time unit later. -/
def w3e : TSys 3 :=
  ⟨0 + 1 + 1, none, max 0 (max 0 0 + 1) + 1,
    Function.update
      (Function.update (Function.update (fun _ => TState.idle) 2 (TState.finished 0)) 0
        (TState.sleeping 0)) 0
      (TState.finished (max 0 (max 0 0 + 1)))⟩

/-- Three-task run: task 1 authorized at time 2. -/
def w3f : TSys 3 :=
  ⟨0 + 1 + 1, none, max (0 + 1 + 1) (max 0 (max 0 0 + 1) + 1) + 1,
    Function.update
      (Function.update
        (Function.update (Function.update (fun _ => TState.idle) 2 (TState.finished 0)) 0
          (TState.sleeping 0)) 0
        (TState.finished (max 0 (max 0 0 + 1)))) 1
      (TState.finished (0 + 1 + 1))⟩

/-! # Theorems -/

/-! ## Decoder claims -/

/-- The `browserHtml` fallback does not fire when the body from steps
1-2 is truthy. -/
theorem bodySelected_of_truthy (fields : List (String × JVal))
    (h : pyTruthyO (hrbExtract fields) = true) :
    bodySelected fields = hrbExtract fields := by
  unfold bodySelected
  simp [h]

/-- A truthy string body is pushed through the base64-or-raw transform. -/
theorem decodeEnvelope_of_selected_str (fields : List (String × JVal)) (s : String)
    (hsel : bodySelected fields = some (.jstr s)) (hne : s.isEmpty = false) :
    decodeEnvelope (.jobj fields) = .content (b64OrRaw s) := by
  simp only [decodeEnvelope, hsel, hne]
  simp

/-- Claim C7: every body string obtained via the string-body or
structured-body decoding paths is passed through the base64 transform
and its decoded bytes are the persisted content; when the transform
fails the raw UTF-8 bytes of the string are persisted instead; in
particular the body "aGVsbG8=" yields the bytes of "hello". -/
theorem C7_body_base64_roundtrip :
    (∀ (fields : List (String × JVal)) (s : String),
      hrbExtract fields = some (.jstr s) → s.isEmpty = false →
      decodeEnvelope (.jobj fields) = .content (b64OrRaw s) ∧
      (∀ bs, b64decode s = some bs → b64OrRaw s = bs) ∧
      (b64decode s = none → b64OrRaw s = utf8 s)) ∧
    decodeEnvelope (.jobj [("httpResponseBody", .jstr "aGVsbG8=")]) =
      .content (utf8 "hello") := by
  refine ⟨?_, rfl⟩
  · intro fields s hex hne
    have hsel : bodySelected fields = some (.jstr s) := by
      rw [bodySelected_of_truthy fields (by simp [hex, pyTruthyO, pyTruthy, hne]), hex]
    refine ⟨decodeEnvelope_of_selected_str fields s hsel hne, ?_, ?_⟩
    · intro bs hbs
      simp [b64OrRaw, hbs]
    · intro hnone
      simp [b64OrRaw, hnone]

/-- Witness for C7: the general part applied to the concrete envelope
of the end-to-end scenario of spec section 8. -/
theorem C7_body_base64_roundtrip_witness :
    decodeEnvelope (.jobj [("httpResponseBody", .jstr "aGVsbG8=")]) =
      .content (b64OrRaw "aGVsbG8=") ∧
    b64OrRaw "aGVsbG8=" = [104, 101, 108, 108, 111] :=
  ⟨(C7_body_base64_roundtrip.1 [("httpResponseBody", .jstr "aGVsbG8=")] "aGVsbG8="
      (by rfl) (by rfl)).1,
   (C7_body_base64_roundtrip.1 [("httpResponseBody", .jstr "aGVsbG8=")] "aGVsbG8="
      (by rfl) (by rfl)).2.1 [104, 101, 108, 108, 111] (by rfl)⟩

/-- Claim C3 counterexample: an envelope whose `httpResponseBody` is a
structured object (here the empty object, with no data/text sub-field)
and which also carries `browserHtml` is decoded from the rendered page,
not from the structured-body path, refuting the claim as universally
stated. -/
theorem C3_counterexample :
    jget [("httpResponseBody", JVal.jobj []), ("browserHtml", JVal.jstr "X")]
      "httpResponseBody" = some (.jobj []) ∧
    jget [("httpResponseBody", JVal.jobj []), ("browserHtml", JVal.jstr "X")]
      "browserHtml" = some (.jstr "X") ∧
    hrbExtract [("httpResponseBody", JVal.jobj []), ("browserHtml", JVal.jstr "X")] =
      none ∧
    bodySelected [("httpResponseBody", JVal.jobj []), ("browserHtml", JVal.jstr "X")] =
      some (.jstr "X") ∧
    decodeEnvelope
        (.jobj [("httpResponseBody", JVal.jobj []), ("browserHtml", JVal.jstr "X")]) =
      .content (utf8 "X") := by
  exact ⟨rfl, rfl, rfl, rfl, rfl⟩

/-- Claim C3 (amended): when the structured body object's `data`/`text`
extraction is truthy, the selected body is exactly that extraction and
the rendered-page field is ignored, whatever it contains. -/
theorem C3_structured_body_priority (fields o : List (String × JVal))
    (hhrb : jget fields "httpResponseBody" = some (.jobj o))
    (htr : pyTruthyO (pyOr (jget o "data") (jget o "text")) = true) :
    bodySelected fields = pyOr (jget o "data") (jget o "text") := by
  have hex : hrbExtract fields = pyOr (jget o "data") (jget o "text") := by
    unfold hrbExtract
    rw [hhrb]
  rw [bodySelected_of_truthy fields (by rw [hex]; exact htr), hex]

/-- Witness for C3 (amended): a concrete envelope with both a populated
structured body and a rendered page selects the structured body. -/
theorem C3_structured_body_priority_witness :
    bodySelected
        [("httpResponseBody", JVal.jobj [("data", JVal.jstr "aGVsbG8=")]),
         ("browserHtml", JVal.jstr "IGNORED")] =
      pyOr (jget [("data", JVal.jstr "aGVsbG8=")] "data")
        (jget [("data", JVal.jstr "aGVsbG8=")] "text") :=
  C3_structured_body_priority
    [("httpResponseBody", JVal.jobj [("data", JVal.jstr "aGVsbG8=")]),
     ("browserHtml", JVal.jstr "IGNORED")]
    [("data", JVal.jstr "aGVsbG8=")] (by rfl) (by rfl)

/-- Claim C8 counterexample: a rendered-page value that happens to be
valid base64 is not persisted as-is: the script pushes `browserHtml`
through the same `base64.b64decode` attempt as body strings, so
"aGVsbG8=" is persisted as the bytes of "hello". -/
theorem C8_counterexample :
    decodeEnvelope (.jobj [("browserHtml", JVal.jstr "aGVsbG8=")]) =
      .content (utf8 "hello") ∧
    utf8 "hello" ≠ utf8 "aGVsbG8=" := by
  exact ⟨rfl, by decide⟩

/-- Claim C8 (amended): when no usable body is present the rendered-page
string is selected, but it is passed through the base64 decoding attempt
like any body string; it is persisted as its raw UTF-8 bytes exactly
when that transform fails. -/
theorem C8_rendered_page_transform (fields : List (String × JVal)) (s : String)
    (hfal : pyTruthyO (hrbExtract fields) = false)
    (hbh : jget fields "browserHtml" = some (.jstr s)) (hne : s.isEmpty = false) :
    decodeEnvelope (.jobj fields) = .content (b64OrRaw s) ∧
    (b64decode s = none → b64OrRaw s = utf8 s) := by
  have hsel : bodySelected fields = some (.jstr s) := by
    simp only [bodySelected, hfal, hbh]
    simp
  exact ⟨decodeEnvelope_of_selected_str fields s hsel hne,
    fun hnone => by simp [b64OrRaw, hnone]⟩

/-- Witness for C8 (amended): a rendered page that is not valid base64
is persisted as its raw bytes. -/
theorem C8_rendered_page_transform_witness :
    decodeEnvelope (.jobj [("browserHtml", JVal.jstr "<p>&amp;</p>")]) =
      .content (b64OrRaw "<p>&amp;</p>") ∧
    (b64decode "<p>&amp;</p>" = none → b64OrRaw "<p>&amp;</p>" = utf8 "<p>&amp;</p>") :=
  C8_rendered_page_transform [("browserHtml", JVal.jstr "<p>&amp;</p>")]
    "<p>&amp;</p>" (by rfl) (by rfl) (by rfl)

/-- Claim C4 counterexample: a response with no recognized shape (here
the empty object) does not make the task fail: `fetch` prints a warning
and returns normally, so `run_one` prints the "ok  :" line for that
target, not the "fail:" line. -/
theorem C4_counterexample :
    runOnePure false (.ok (.jobj [])) true = .warnedNoBody "\x7b\x7d" ∧
    printedTag (runOnePure false (.ok (.jobj [])) true) = "ok  :" ∧
    "ok  :" ≠ "fail:" := by
  exact ⟨rfl, rfl, by decide⟩

/-- Claim C4 (amended): when no recognized shape yields a body, the task
writes no cache entry and logs a warning whose diagnostic excerpt is the
first 500 characters of the pretty-printed envelope, but it completes
normally: it is reported with the "ok  :" tag, not counted as a
failure. -/
theorem C4_no_body_no_write (fields : List (String × JVal)) (w : Bool)
    (hfal : pyTruthyO (bodySelected fields) = false) :
    decodeEnvelope (.jobj fields) = .warnNoBody (pyTake 500 (jdumps (.jobj fields))) ∧
    runOnePure false (.ok (.jobj fields)) w =
      .warnedNoBody (pyTake 500 (jdumps (.jobj fields))) ∧
    fetchWrite false (.ok (.jobj fields)) w = none ∧
    printedTag (runOnePure false (.ok (.jobj fields)) w) = "ok  :" := by
  have hdec : decodeEnvelope (.jobj fields) =
      .warnNoBody (pyTake 500 (jdumps (.jobj fields))) := by
    cases hsel : bodySelected fields with
    | none => simp [decodeEnvelope, hsel]
    | some v =>
      rw [hsel] at hfal
      cases v with
      | jstr s =>
        have : s.isEmpty = true := by
          simpa [pyTruthyO, pyTruthy] using hfal
        simp [decodeEnvelope, hsel, this]
      | jnum m => simp_all [decodeEnvelope, pyTruthyO]
      | jbool b => simp_all [decodeEnvelope, pyTruthyO]
      | jnull => simp [decodeEnvelope, hsel, pyTruthyO, pyTruthy]
      | jarr items => simp_all [decodeEnvelope, pyTruthyO]
      | jobj fs => simp_all [decodeEnvelope, pyTruthyO]
  refine ⟨hdec, ?_, ?_, ?_⟩
  · simp [runOnePure, hdec]
  · simp [fetchWrite, hdec]
  · simp [runOnePure, hdec, printedTag]

/-- Witness for C4 (amended): the empty-object envelope. -/
theorem C4_no_body_no_write_witness :
    decodeEnvelope (.jobj []) = .warnNoBody (pyTake 500 (jdumps (.jobj []))) ∧
    runOnePure false (.ok (.jobj [])) true =
      .warnedNoBody (pyTake 500 (jdumps (.jobj []))) ∧
    fetchWrite false (.ok (.jobj [])) true = none ∧
    printedTag (runOnePure false (.ok (.jobj [])) true) = "ok  :" :=
  C4_no_body_no_write [] true (by rfl)

/-! ## Transport retry claims -/

/-- The send loop consumes at most budget + 1 attempts. -/
theorem sendWithRetries_used_le (attempts : ℕ → AttemptResult) :
    ∀ budget k, (sendWithRetries attempts budget k).2 ≤ budget + 1 := by
  intro budget
  induction budget with
  | zero =>
    intro k
    unfold sendWithRetries
    cases attempts k <;> simp
  | succ b ih =>
    intro k
    unfold sendWithRetries
    cases attempts k with
    | ok env => simp
    | clientErr4xx c => simp
    | transient e =>
      simpa using Nat.succ_le_succ (ih (k + 1))

/-- Claim C9: the transport is configured with a bounded retry count
(RETRIES = 3 in the script): it consumes at most RETRIES + 1 attempts, a
4xx client error on the first attempt is surfaced at once with no retry,
a transient first failure is retried, and the pool observes at most one
failure per send. -/
theorem C9_transport_retry_policy (attempts : ℕ → AttemptResult) :
    (sendWithRetries attempts RETRIES 0).2 ≤ RETRIES + 1 ∧
    (∀ c, attempts 0 = .clientErr4xx c →
      (sendWithRetries attempts RETRIES 0).2 = 1 ∧
      (sendWithRetries attempts RETRIES 0).1 = .error (.client4xx c)) ∧
    (∀ e, attempts 0 = .transient e → 2 ≤ (sendWithRetries attempts RETRIES 0).2) ∧
    surfacedFailures (sendWithRetries attempts RETRIES 0).1 ≤ 1 := by
  refine ⟨sendWithRetries_used_le attempts RETRIES 0, ?_, ?_, ?_⟩
  · intro c hc
    unfold sendWithRetries
    rw [hc]
    exact ⟨rfl, rfl⟩
  · intro e he
    have h1 : 1 ≤ (sendWithRetries attempts 2 1).2 := by
      unfold sendWithRetries
      cases attempts 1 <;> simp
    unfold sendWithRetries
    rw [he]
    simpa [RETRIES] using Nat.succ_le_succ h1
  · cases h : (sendWithRetries attempts RETRIES 0).1 <;> simp [surfacedFailures]

/-- Witness for C9: a stream whose first attempt is a connection reset
and whose second succeeds. -/
theorem C9_transport_retry_policy_witness :
    2 ≤ (sendWithRetries
          (fun k => if k == 0 then .transient .connReset else .ok .jnull)
          RETRIES 0).2 ∧
    surfacedFailures
        (sendWithRetries
          (fun k => if k == 0 then .transient .connReset else .ok .jnull)
          RETRIES 0).1 ≤ 1 :=
  ⟨(C9_transport_retry_policy
      (fun k => if k == 0 then .transient .connReset else .ok .jnull)).2.2.1
      .connReset (by rfl),
   (C9_transport_retry_policy
      (fun k => if k == 0 then .transient .connReset else .ok .jnull)).2.2.2⟩

/-! ## Throttle claims -/

/-- The monotonic clock never decreases along a step. -/
theorem TStep.time_mono {n : ℕ} {gap : Fin n → ℚ} {s s' : TSys n}
    (h : TStep gap s s') : s.time ≤ s'.time := by
  cases h with
  | tick d hd => simpa using hd
  | acquireNoWait i hidle hlock hle => exact le_rfl
  | acquireSleep i hidle hlock hlt => exact le_rfl
  | wake i now hsl ht => exact le_rfl

/-- `_next_send_time` never decreases along a step (gaps are
nonnegative). -/
theorem TStep.nst_mono {n : ℕ} {gap : Fin n → ℚ} {s s' : TSys n}
    (hgap : ∀ k, 0 ≤ gap k) (h : TStep gap s s') : s.nst ≤ s'.nst := by
  cases h with
  | tick d hd => exact le_rfl
  | acquireNoWait i hidle hlock hle =>
    have := le_max_right s.time s.nst
    have := hgap i
    simp only
    linarith
  | acquireSleep i hidle hlock hlt => exact le_rfl
  | wake i now hsl ht =>
    have := le_max_right now s.nst
    have := hgap i
    simp only
    linarith

/-- A finished task stays finished with the same authorization
timestamp. -/
theorem TStep.finished_stable {n : ℕ} {gap : Fin n → ℚ} {s s' : TSys n} {i : Fin n} {a : ℚ}
    (h : TStep gap s s') (hf : s.tstate i = .finished a) : s'.tstate i = .finished a := by
  cases h with
  | tick d hd => exact hf
  | acquireNoWait j hidle hlock hle =>
    by_cases hji : i = j
    · subst hji; rw [hf] at hidle; cases hidle
    · simpa [Function.update_noteq hji] using hf
  | acquireSleep j hidle hlock hlt =>
    by_cases hji : i = j
    · subst hji; rw [hf] at hidle; cases hidle
    · simpa [Function.update_noteq hji] using hf
  | wake j now hsl ht =>
    by_cases hji : i = j
    · subst hji; rw [hf] at hsl; cases hsl
    · simpa [Function.update_noteq hji] using hf

/-- A finished task stays finished along any execution. -/
theorem TReaches.finished_persists {n : ℕ} {gap : Fin n → ℚ} {s s' : TSys n} {i : Fin n} {a : ℚ}
    (h : TReaches gap s s') (hf : s.tstate i = .finished a) : s'.tstate i = .finished a := by
  induction h with
  | refl => exact hf
  | tail hst hstep ih => exact hstep.finished_stable ih

/-- The initial state satisfies the throttle invariant. -/
theorem TInv_tinit {n : ℕ} (I : ℚ) (t0 : ℚ) : TInv I (tinit n t0) := by
  refine ⟨?_, ?_, ?_⟩
  · intro i now h; cases h
  · intro i a h; cases h
  · intro i j a b hij ha hb; cases ha

/-- One step preserves the throttle invariant. -/
theorem TInv_step {n : ℕ} {I : ℚ} {gap : Fin n → ℚ} {s s' : TSys n}
    (hI : 0 ≤ I) (hgap : ∀ k, I ≤ gap k)
    (hinv : TInv I s) (hstep : TStep gap s s') : TInv I s' := by
  obtain ⟨hS, hF, hP⟩ := hinv
  cases hstep with
  | tick d hd =>
    refine ⟨fun i now h => hS i now h, fun i a h => ?_, hP⟩
    obtain ⟨h1, h2⟩ := hF i a h
    exact ⟨by simp only; linarith, h2⟩
  | acquireNoWait i hidle hlock hle =>
    have hgi : I ≤ gap i := hgap i
    have hmax : s.time ≤ max s.time s.nst := le_max_left _ _
    have hmax2 : s.nst ≤ max s.time s.nst := le_max_right _ _
    refine ⟨?_, ?_, ?_⟩
    · intro j now hj
      by_cases hji : j = i
      · subst hji; simp only [Function.update_same] at hj; cases hj
      · simp only [Function.update_noteq hji] at hj
        obtain ⟨hl, _⟩ := hS j now hj
        rw [hlock] at hl; cases hl
    · intro j a hj
      by_cases hji : j = i
      · subst hji; simp only [Function.update_same] at hj
        cases hj
        exact ⟨le_rfl, by simp only; linarith⟩
      · simp only [Function.update_noteq hji] at hj
        obtain ⟨h1, h2⟩ := hF j a hj
        exact ⟨h1, by simp only; linarith⟩
    · intro j k a b hjk hj hk
      by_cases hji : j = i
      · subst hji
        simp only [Function.update_same] at hj
        cases hj
        have hki : k ≠ j := fun h => hjk h.symm
        simp only [Function.update_noteq hki] at hk
        obtain ⟨_, h2⟩ := hF k b hk
        exact Or.inr (by linarith)
      · simp only [Function.update_noteq hji] at hj
        by_cases hki : k = i
        · subst hki
          simp only [Function.update_same] at hk
          cases hk
          obtain ⟨_, h2⟩ := hF j a hj
          exact Or.inl (by linarith)
        · simp only [Function.update_noteq hki] at hk
          exact hP j k a b hjk hj hk
  | acquireSleep i hidle hlock hlt =>
    refine ⟨?_, ?_, ?_⟩
    · intro j now hj
      by_cases hji : j = i
      · subst hji; simp only [Function.update_same] at hj
        cases hj
        exact ⟨rfl, hlt⟩
      · simp only [Function.update_noteq hji] at hj
        obtain ⟨hl, _⟩ := hS j now hj
        rw [hlock] at hl; cases hl
    · intro j a hj
      by_cases hji : j = i
      · subst hji; simp only [Function.update_same] at hj; cases hj
      · simp only [Function.update_noteq hji] at hj
        exact hF j a hj
    · intro j k a b hjk hj hk
      by_cases hji : j = i
      · subst hji; simp only [Function.update_same] at hj; cases hj
      · by_cases hki : k = i
        · subst hki; simp only [Function.update_same] at hk; cases hk
        · simp only [Function.update_noteq hji] at hj
          simp only [Function.update_noteq hki] at hk
          exact hP j k a b hjk hj hk
  | wake i now hsl ht =>
    have hgi : I ≤ gap i := hgap i
    have hlocki : s.lock = some i := (hS i now hsl).1
    have hmax2 : s.nst ≤ max now s.nst := le_max_right _ _
    refine ⟨?_, ?_, ?_⟩
    · intro j now2 hj
      by_cases hji : j = i
      · subst hji; simp only [Function.update_same] at hj; cases hj
      · simp only [Function.update_noteq hji] at hj
        obtain ⟨hl, _⟩ := hS j now2 hj
        rw [hlocki] at hl
        cases hl
        exact absurd rfl hji
    · intro j a hj
      by_cases hji : j = i
      · subst hji; simp only [Function.update_same] at hj
        cases hj
        exact ⟨ht, by simp only; linarith⟩
      · simp only [Function.update_noteq hji] at hj
        obtain ⟨h1, h2⟩ := hF j a hj
        exact ⟨h1, by simp only; linarith⟩
    · intro j k a b hjk hj hk
      by_cases hji : j = i
      · subst hji
        simp only [Function.update_same] at hj
        cases hj
        have hki : k ≠ j := fun h => hjk h.symm
        simp only [Function.update_noteq hki] at hk
        obtain ⟨_, h2⟩ := hF k b hk
        exact Or.inr (by linarith)
      · simp only [Function.update_noteq hji] at hj
        by_cases hki : k = i
        · subst hki
          simp only [Function.update_same] at hk
          cases hk
          obtain ⟨_, h2⟩ := hF j a hj
          exact Or.inl (by linarith)
        · simp only [Function.update_noteq hki] at hk
          exact hP j k a b hjk hj hk

/-- The invariant holds in every reachable state. -/
theorem TInv_reach {n : ℕ} {I : ℚ} {gap : Fin n → ℚ} {t0 : ℚ} {s : TSys n}
    (hI : 0 ≤ I) (hgap : ∀ k, I ≤ gap k)
    (h : TReaches gap (tinit n t0) s) : TInv I s := by
  induction h with
  | refl => exact TInv_tinit I t0
  | tail hst hstep ih => exact TInv_step hI hgap ih hstep

/-- While a task sleeps inside the throttle it holds the lock, so no
step by any other task can move it or change `_next_send_time`; the
only possible change is its own wake, which stamps it with
authorization time `max now nst`. -/
theorem TStep.sleeping_frozen {n : ℕ} {I : ℚ} {gap : Fin n → ℚ} {s s' : TSys n} {i : Fin n}
    {now : ℚ} (hinv : TInv I s) (hsl : s.tstate i = .sleeping now)
    (hstep : TStep gap s s') :
    (s'.tstate i = .sleeping now ∧ s'.nst = s.nst) ∨
      s'.tstate i = .finished (max now s.nst) := by
  obtain ⟨hS, _, _⟩ := hinv
  have hlocki : s.lock = some i := (hS i now hsl).1
  cases hstep with
  | tick d hd => exact Or.inl ⟨hsl, rfl⟩
  | acquireNoWait j hidle hlock hle => rw [hlocki] at hlock; cases hlock
  | acquireSleep j hidle hlock hlt => rw [hlocki] at hlock; cases hlock
  | wake j now2 hsl2 ht =>
    have hlockj : s.lock = some j := (hS j now2 hsl2).1
    rw [hlocki] at hlockj
    cases hlockj
    rw [hsl] at hsl2
    cases hsl2
    exact Or.inr (by simp [Function.update_same])

/-- A task that is asleep inside the throttle is authorized, when it
eventually finishes, exactly at its scheduled slot `max now nst`
(with `nst` as frozen while it holds the lock). -/
theorem sleeping_finish_time {n : ℕ} {I : ℚ} {gap : Fin n → ℚ}
    (hI : 0 ≤ I) (hgap : ∀ k, I ≤ gap k) :
    ∀ {s s' : TSys n}, TReaches gap s s' → ∀ {i : Fin n} {now b : ℚ}, TInv I s →
      s.tstate i = .sleeping now → s'.tstate i = .finished b → b = max now s.nst := by
  intro s s' h
  induction h using Relation.ReflTransGen.head_induction_on with
  | refl =>
    intro i now b _ hsl hf
    rw [hsl] at hf; cases hf
  | @head s1 s2 hstep hrest ih =>
    intro i now b hinv hsl hf
    rcases TStep.sleeping_frozen hinv hsl hstep with ⟨hsl2, hnst⟩ | hfin
    · rw [← hnst]
      exact ih (TInv_step hI hgap hinv hstep) hsl2 hf
    · have := TReaches.finished_persists hrest hfin
      rw [this] at hf
      cases hf
      rfl

/-- A task that has not yet entered the throttle is authorized, when it
eventually finishes, no earlier than the current `_next_send_time`. -/
theorem idle_finish_after_nst {n : ℕ} {I : ℚ} {gap : Fin n → ℚ}
    (hI : 0 ≤ I) (hgap : ∀ k, I ≤ gap k) :
    ∀ {s s' : TSys n}, TReaches gap s s' → ∀ {j : Fin n} {b : ℚ}, TInv I s →
      s.tstate j = .idle → s'.tstate j = .finished b → s.nst ≤ b := by
  intro s s' h
  induction h using Relation.ReflTransGen.head_induction_on with
  | refl =>
    intro j b _ hid hf
    rw [hid] at hf; cases hf
  | @head s1 s2 hstep hrest ih =>
    intro j b hinv hid hf
    have hg0 : ∀ k, 0 ≤ gap k := fun k => le_trans hI (hgap k)
    have hinv2 := TInv_step hI hgap hinv hstep
    cases hstep with
    | tick d hd => exact ih hinv2 hid hf
    | acquireNoWait k hidle hlock hle =>
      by_cases hjk : j = k
      · subst hjk
        have hfin : (TSys.mk s1.time s1.lock (max s1.time s1.nst + gap j)
            (Function.update s1.tstate j (.finished s1.time))).tstate j =
            .finished s1.time := by
          simp [Function.update_same]
        have := TReaches.finished_persists hrest hfin
        rw [this] at hf
        cases hf
        exact hle
      · have hid2 : (Function.update s1.tstate k (TState.finished s1.time)) j = .idle := by
          simpa [Function.update_noteq hjk] using hid
        have hb := ih hinv2 hid2 hf
        have : s1.nst ≤ max s1.time s1.nst + gap k := by
          have := le_max_right s1.time s1.nst
          have := hg0 k
          linarith
        exact le_trans this hb
    | acquireSleep k hidle hlock hlt =>
      by_cases hjk : j = k
      · subst hjk
        have hsl2 : (TSys.mk s1.time (some j) s1.nst
            (Function.update s1.tstate j (.sleeping s1.time))).tstate j =
            .sleeping s1.time := by
          simp [Function.update_same]
        have hb := sleeping_finish_time hI hgap hrest hinv2 hsl2 hf
        simp only at hb
        rw [hb]
        exact le_max_right _ _
      · have hid2 : (Function.update s1.tstate k (TState.sleeping s1.time)) j = .idle := by
          simpa [Function.update_noteq hjk] using hid
        exact ih hinv2 hid2 hf
    | wake k now hsl ht =>
      have hjk : j ≠ k := by
        intro h
        subst h
        rw [hid] at hsl; cases hsl
      have hid2 : (Function.update s1.tstate k (TState.finished (max now s1.nst))) j =
          .idle := by
        simpa [Function.update_noteq hjk] using hid
      have hb := ih hinv2 hid2 hf
      have : s1.nst ≤ max now s1.nst + gap k := by
        have := le_max_right now s1.nst
        have := hg0 k
        linarith
      exact le_trans this hb

/-- Claim C1: under any interleaving of any number of concurrent calls
to the throttle, any two authorization timestamps (times at which
distinct calls return) differ by at least the configured minimum
interval: each task's gap is `MIN_INTERVAL` plus a nonnegative jitter
draw, so `I ≤ gap k` for every task. -/
theorem C1_throttle_min_spacing {n : ℕ} (I : ℚ) (gap : Fin n → ℚ) (t0 : ℚ)
    (hI : 0 ≤ I) (hgap : ∀ k, I ≤ gap k) (s : TSys n)
    (hreach : TReaches gap (tinit n t0) s) (i j : Fin n) (a b : ℚ)
    (hij : i ≠ j) (ha : s.tstate i = .finished a) (hb : s.tstate j = .finished b) :
    I ≤ |a - b| := by
  obtain ⟨_, _, hP⟩ := TInv_reach hI hgap hreach
  rcases hP i j a b hij ha hb with h | h
  · exact le_abs.mpr (Or.inr (by linarith))
  · exact le_abs.mpr (Or.inl (by linarith))

/-- Witness for C1: with I = 1 and unit gaps, two tasks go through the
throttle (the first immediately at time 0, the second after a tick) and
their authorization timestamps 0 and 1 are one interval apart. -/
theorem C1_throttle_min_spacing_witness :
    TReaches gap2 (tinit 2 0) w2c ∧
      w2c.tstate 0 = .finished 0 ∧ w2c.tstate 1 = .finished (0 + 1) ∧
      (1 : ℚ) ≤ |(0 : ℚ) - (0 + 1)| := by
  have t1 : TStep gap2 (tinit 2 0) w2a :=
    TStep.acquireNoWait (tinit 2 0) 0 rfl rfl le_rfl
  have t2 : TStep gap2 w2a w2b := TStep.tick w2a 1 (by norm_num)
  have t3 : TStep gap2 w2b w2c :=
    TStep.acquireNoWait w2b 1 rfl rfl (by norm_num [w2b])
  have hreach : TReaches gap2 (tinit 2 0) w2c :=
    Relation.ReflTransGen.tail
      (Relation.ReflTransGen.tail (Relation.ReflTransGen.single t1) t2) t3
  exact ⟨hreach, rfl, rfl,
    C1_throttle_min_spacing 1 gap2 0 (by norm_num) (fun k => le_rfl) w2c hreach
      0 1 0 (0 + 1) (by decide) rfl rfl⟩

/-- Claim C10: the throttle's lock is held for the whole body of the
call, including the suspension: in any reachable state at most one task
is inside the throttle (here, sleeping in it), and a task that has not
yet entered while another sleeps inside is authorized no earlier than
the sleeper. -/
theorem C10_lock_held_through_sleep {n : ℕ} (I : ℚ) (gap : Fin n → ℚ) (t0 : ℚ)
    (hI : 0 ≤ I) (hgap : ∀ k, I ≤ gap k) (s s2 : TSys n) (i j : Fin n) (now a b : ℚ)
    (hreach : TReaches gap (tinit n t0) s)
    (hsleep : s.tstate i = .sleeping now)
    (hidle : s.tstate j = .idle)
    (hss : TReaches gap s s2)
    (hfi : s2.tstate i = .finished a)
    (hfj : s2.tstate j = .finished b) :
    a ≤ b ∧ ∀ l now2, s.tstate l = .sleeping now2 → l = i := by
  have hinv := TInv_reach hI hgap hreach
  obtain ⟨hS, hF, hP⟩ := hinv
  constructor
  · have ha : a = max now s.nst := sleeping_finish_time hI hgap hss ⟨hS, hF, hP⟩ hsleep hfi
    have hmax : max now s.nst = s.nst := max_eq_right (le_of_lt (hS i now hsleep).2)
    have hb : s.nst ≤ b := idle_finish_after_nst hI hgap hss ⟨hS, hF, hP⟩ hidle hfj
    rw [ha, hmax]
    exact hb
  · intro l now2 hl
    have h1 := (hS i now hsleep).1
    have h2 := (hS l now2 hl).1
    rw [h1] at h2
    injection h2 with h3
    exact h3.symm

/-- Witness for C10: three tasks; one finishes immediately, the second
sleeps inside the throttle while the third is still idle, and the third
is authorized after the sleeper. -/
theorem C10_lock_held_through_sleep_witness :
    TReaches gap3 (tinit 3 0) w3b ∧
      w3b.tstate 0 = .sleeping 0 ∧ w3b.tstate 1 = .idle ∧
      TReaches gap3 w3b w3f ∧
      w3f.tstate 0 = .finished (max 0 (max 0 0 + 1)) ∧
      w3f.tstate 1 = .finished (0 + 1 + 1) ∧
      max 0 (max 0 0 + 1) ≤ (0 + 1 + 1 : ℚ) ∧
      (∀ l now2, w3b.tstate l = .sleeping now2 → l = 0) := by
  have t1 : TStep gap3 (tinit 3 0) w3a :=
    TStep.acquireNoWait (tinit 3 0) 2 rfl rfl le_rfl
  have t2 : TStep gap3 w3a w3b :=
    TStep.acquireSleep w3a 0 rfl rfl (by norm_num [w3a])
  have t3 : TStep gap3 w3b w3c := TStep.tick w3b 1 (by norm_num)
  have t4 : TStep gap3 w3c w3d :=
    TStep.wake w3c 0 0 rfl (by norm_num [w3c])
  have t5 : TStep gap3 w3d w3e := TStep.tick w3d 1 (by norm_num)
  have t6 : TStep gap3 w3e w3f :=
    TStep.acquireNoWait w3e 1 rfl rfl (by norm_num [w3e])
  have hr1 : TReaches gap3 (tinit 3 0) w3b :=
    Relation.ReflTransGen.tail (Relation.ReflTransGen.single t1) t2
  have hr2 : TReaches gap3 w3b w3f :=
    Relation.ReflTransGen.tail
      (Relation.ReflTransGen.tail
        (Relation.ReflTransGen.tail (Relation.ReflTransGen.single t3) t4) t5) t6
  have hmain := C10_lock_held_through_sleep 1 gap3 0 (by norm_num) (fun k => le_rfl)
    w3b w3f 0 1 0 (max 0 (max 0 0 + 1)) (0 + 1 + 1) hr1 rfl rfl hr2 rfl rfl
  exact ⟨hr1, rfl, rfl, hr2, rfl, rfl, hmain.1, hmain.2⟩


/-! ## Pool claims -/

/-- Summing a per-task quantity after updating one task: the sum
changes by replacing that task's contribution. -/
theorem sum_comp_update {n : ℕ} (g : TaskSt → ℕ) (f : Fin n → TaskSt) (i : Fin n)
    (v : TaskSt) :
    (∑ j : Fin n, g (Function.update f i v j)) + g (f i) =
      (∑ j : Fin n, g (f j)) + g v := by
  have e1 : ∑ j : Fin n, g (Function.update f i v j) =
      g v + ∑ j in Finset.univ.erase i, g (f j) := by
    rw [← Finset.add_sum_erase _ _ (Finset.mem_univ i), Function.update_same]
    congr 1
    refine Finset.sum_congr rfl (fun j hj => ?_)
    rw [Function.update_noteq (Finset.ne_of_mem_erase hj)]
  have e2 : ∑ j : Fin n, g (f j) =
      g (f i) + ∑ j in Finset.univ.erase i, g (f j) :=
    (Finset.add_sum_erase _ _ (Finset.mem_univ i)).symm
  rw [e1, e2]
  ring

/-- Counting after updating one task. -/
theorem cnt_update {n : ℕ} (f : Fin n → TaskSt) (i : Fin n) (v : TaskSt)
    (q : TaskSt → Bool) :
    cnt (Function.update f i v) q + (if q (f i) then 1 else 0) =
      cnt f q + (if q v then 1 else 0) := by
  simpa [cnt] using sum_comp_update (fun t => if q t then 1 else 0) f i v

/-- Semaphore accounting is preserved by every pool step. -/
theorem psem_step {n : ℕ} {p : PParams n} {s s2 : PSys n}
    (h : PSem p s) (hst : PStep p s s2) : PSem p s2 := by
  unfold PSem at h ⊢
  cases hst with
  | start i hi ha =>
    have hc := cnt_update s.task i TaskSt.cacheCheck isHolding
    rw [hi] at hc
    simp [isHolding] at hc
    dsimp only
    omega
  | hit i hi hc0 =>
    have hc := cnt_update s.task i (TaskSt.completed Outcome.skipped) isHolding
    rw [hi] at hc
    simp [isHolding] at hc
    dsimp only
    omega
  | miss i hi hc0 =>
    have hc := cnt_update s.task i TaskSt.throttling isHolding
    rw [hi] at hc
    simp [isHolding] at hc
    dsimp only
    omega
  | send i hi =>
    have hc := cnt_update s.task i TaskSt.sending isHolding
    rw [hi] at hc
    simp [isHolding] at hc
    dsimp only
    omega
  | recvErr i e hi ho =>
    have hc := cnt_update s.task i (TaskSt.completed (Outcome.failedTransport e)) isHolding
    rw [hi] at hc
    simp [isHolding] at hc
    dsimp only
    omega
  | recvBody i env bs hi ho hd =>
    have hc := cnt_update s.task i (TaskSt.writing bs) isHolding
    rw [hi] at hc
    simp [isHolding] at hc
    dsimp only
    omega
  | recvWarnStr i env pre hi ho hd =>
    have hc := cnt_update s.task i (TaskSt.completed (Outcome.warnedString pre)) isHolding
    rw [hi] at hc
    simp [isHolding] at hc
    dsimp only
    omega
  | recvWarnNoBody i env pre hi ho hd =>
    have hc := cnt_update s.task i (TaskSt.completed (Outcome.warnedNoBody pre)) isHolding
    rw [hi] at hc
    simp [isHolding] at hc
    dsimp only
    omega
  | recvRaised i env hi ho hd =>
    have hc := cnt_update s.task i (TaskSt.completed Outcome.failedDecode) isHolding
    rw [hi] at hc
    simp [isHolding] at hc
    dsimp only
    omega
  | writeOk i bs hi hw =>
    have hc := cnt_update s.task i (TaskSt.completed Outcome.success) isHolding
    rw [hi] at hc
    simp [isHolding] at hc
    dsimp only
    omega
  | writeFail i bs hi hw =>
    have hc := cnt_update s.task i (TaskSt.completed Outcome.failedWrite) isHolding
    rw [hi] at hc
    simp [isHolding] at hc
    dsimp only
    omega

/-- Semaphore accounting holds initially. -/
theorem psem_pinit {n : ℕ} (p : PParams n) : PSem p (pinit p) := by
  unfold PSem pinit
  simp [cnt, isHolding]

/-- Semaphore accounting holds in every reachable state. -/
theorem psem_reach {n : ℕ} {p : PParams n} {s : PSys n}
    (h : PReaches p (pinit p) s) : PSem p s := by
  induction h with
  | refl => exact psem_pinit p
  | tail hst hstep ih => exact psem_step ih hstep

/-- Claim C6: in every reachable state of a run, no more than the
configured concurrency of tasks hold a pool slot, and in particular no
more than that many transport calls are simultaneously open. -/
theorem C6_concurrency_bound {n : ℕ} (p : PParams n) (s : PSys n)
    (hreach : PReaches p (pinit p) s) :
    cnt s.task isSending ≤ p.conc ∧ cnt s.task isHolding ≤ p.conc := by
  have hsem := psem_reach hreach
  unfold PSem at hsem
  have hmono : cnt s.task isSending ≤ cnt s.task isHolding := by
    unfold cnt
    refine Finset.sum_le_sum (fun j _ => ?_)
    cases hj : s.task j <;> simp [isSending, isHolding]
  exact ⟨le_trans hmono (by omega), by omega⟩


/-- Transporting a task's invariant when neither its state nor its own
cache entry changed. -/
theorem taskinv_transport {n : ℕ} {p : PParams n} {s s2 : PSys n} (m : Fin n)
    (hm : TaskInv p s m) (ht : s2.task m = s.task m)
    (hcache : s2.cache (p.key (p.tgt m)) = s.cache (p.key (p.tgt m))) :
    TaskInv p s2 m := by
  unfold TaskInv at hm ⊢
  rw [ht, hcache]
  exact hm

/-- The per-task invariants hold initially. -/
theorem pdet_pinit {n : ℕ} (p : PParams n) : PDet p (pinit p) := fun _ => rfl

/-- One pool step preserves every task's invariant (keys of distinct
targets being distinct, so no task writes another task's entry). -/
theorem pdet_step {n : ℕ} {p : PParams n} {s s2 : PSys n}
    (hinj : KeyInj p) (h : PDet p s) (hst : PStep p s s2) : PDet p s2 := by
  intro m
  have hm := h m
  cases hst with
  | start i hi ha =>
    by_cases hmi : m = i
    · subst hmi
      unfold TaskInv at hm ⊢
      rw [hi] at hm
      dsimp only
      simp only [Function.update_same]
      exact hm
    · exact taskinv_transport m hm (by dsimp only; rw [Function.update_noteq hmi]) rfl
  | hit i hi hc0 =>
    by_cases hmi : m = i
    · subst hmi
      unfold TaskInv at hm ⊢
      rw [hi] at hm
      dsimp only
      simp only [Function.update_same]
      rw [hm] at hc0
      simp [runOnePure, hc0]
    · exact taskinv_transport m hm (by dsimp only; rw [Function.update_noteq hmi]) rfl
  | miss i hi hc0 =>
    by_cases hmi : m = i
    · subst hmi
      unfold TaskInv at hm ⊢
      rw [hi] at hm
      dsimp only
      simp only [Function.update_same]
      rw [hm] at hc0
      exact ⟨hm, hc0⟩
    · exact taskinv_transport m hm (by dsimp only; rw [Function.update_noteq hmi]) rfl
  | send i hi =>
    by_cases hmi : m = i
    · subst hmi
      unfold TaskInv at hm ⊢
      rw [hi] at hm
      dsimp only
      simp only [Function.update_same]
      exact hm
    · exact taskinv_transport m hm (by dsimp only; rw [Function.update_noteq hmi]) rfl
  | recvErr i e hi ho =>
    by_cases hmi : m = i
    · subst hmi
      unfold TaskInv at hm ⊢
      rw [hi] at hm
      dsimp only
      simp only [Function.update_same]
      rw [ho]
      simp [runOnePure, hm.2]
    · exact taskinv_transport m hm (by dsimp only; rw [Function.update_noteq hmi]) rfl
  | recvBody i env bs hi ho hd =>
    by_cases hmi : m = i
    · subst hmi
      unfold TaskInv at hm ⊢
      rw [hi] at hm
      dsimp only
      simp only [Function.update_same]
      exact ⟨hm.1, hm.2, env, ho, hd⟩
    · exact taskinv_transport m hm (by dsimp only; rw [Function.update_noteq hmi]) rfl
  | recvWarnStr i env pre hi ho hd =>
    by_cases hmi : m = i
    · subst hmi
      unfold TaskInv at hm ⊢
      rw [hi] at hm
      dsimp only
      simp only [Function.update_same]
      rw [ho]
      simp [runOnePure, hm.2, hd]
    · exact taskinv_transport m hm (by dsimp only; rw [Function.update_noteq hmi]) rfl
  | recvWarnNoBody i env pre hi ho hd =>
    by_cases hmi : m = i
    · subst hmi
      unfold TaskInv at hm ⊢
      rw [hi] at hm
      dsimp only
      simp only [Function.update_same]
      rw [ho]
      simp [runOnePure, hm.2, hd]
    · exact taskinv_transport m hm (by dsimp only; rw [Function.update_noteq hmi]) rfl
  | recvRaised i env hi ho hd =>
    by_cases hmi : m = i
    · subst hmi
      unfold TaskInv at hm ⊢
      rw [hi] at hm
      dsimp only
      simp only [Function.update_same]
      rw [ho]
      simp [runOnePure, hm.2, hd]
    · exact taskinv_transport m hm (by dsimp only; rw [Function.update_noteq hmi]) rfl
  | writeOk i bs hi hw =>
    by_cases hmi : m = i
    · subst hmi
      unfold TaskInv at hm ⊢
      rw [hi] at hm
      dsimp only
      simp only [Function.update_same]
      obtain ⟨hown, hc0, env, ho, hd⟩ := hm
      rw [ho, hc0, hw]
      simp [runOnePure, hd]
    · have hkey : p.key (p.tgt m) ≠ p.key (p.tgt i) := fun hk => hmi (hinj m i hk)
      refine taskinv_transport m hm (by dsimp only; rw [Function.update_noteq hmi]) ?_
      dsimp only
      rw [Function.update_noteq hkey]
  | writeFail i bs hi hw =>
    by_cases hmi : m = i
    · subst hmi
      unfold TaskInv at hm ⊢
      rw [hi] at hm
      dsimp only
      simp only [Function.update_same]
      obtain ⟨hown, hc0, env, ho, hd⟩ := hm
      rw [ho, hc0, hw]
      simp [runOnePure, hd]
    · exact taskinv_transport m hm (by dsimp only; rw [Function.update_noteq hmi]) rfl

/-- The per-task invariants hold in every reachable state. -/
theorem pdet_reach {n : ℕ} {p : PParams n} {s : PSys n} (hinj : KeyInj p)
    (h : PReaches p (pinit p) s) : PDet p s := by
  induction h with
  | refl => exact pdet_pinit p
  | tail hst hstep ih => exact pdet_step hinj ih hstep

/-- Determinacy: a completed task's outcome is the pure function of its
own inputs, whatever the interleaving was. -/
theorem completed_outcome {n : ℕ} {p : PParams n} {s : PSys n} (hinj : KeyInj p)
    (hreach : PReaches p (pinit p) s) {i : Fin n} {o : Outcome}
    (hc : s.task i = .completed o) :
    o = runOnePure (hasEntry (p.cache0 (p.key (p.tgt i)))) (p.oracle (p.tgt i))
          (p.wOk (p.tgt i)) := by
  have hdet := pdet_reach hinj hreach i
  unfold TaskInv at hdet
  rw [hc] at hdet
  exact hdet


/-- With a fully populated cache, no step can leave the short-circuit
regime: nothing is sent, the cache never changes. -/
theorem c2inv_step {n : ℕ} {p : PParams n} {s s2 : PSys n}
    (hall : ∀ i, hasEntry (p.cache0 (p.key (p.tgt i))) = true)
    (h : C2Inv p s) (hst : PStep p s s2) : C2Inv p s2 := by
  obtain ⟨hsent, hcache, htask⟩ := h
  cases hst with
  | start i hi ha =>
    refine ⟨hsent, hcache, fun m => ?_⟩
    by_cases hmi : m = i
    · subst hmi
      dsimp only
      rw [Function.update_same]
      exact Or.inr (Or.inl rfl)
    · dsimp only
      rw [Function.update_noteq hmi]
      exact htask m
  | hit i hi hc0 =>
    refine ⟨hsent, hcache, fun m => ?_⟩
    by_cases hmi : m = i
    · subst hmi
      dsimp only
      rw [Function.update_same]
      exact Or.inr (Or.inr rfl)
    · dsimp only
      rw [Function.update_noteq hmi]
      exact htask m
  | miss i hi hc0 =>
    rw [hcache] at hc0
    rw [hall i] at hc0
    cases hc0
  | send i hi =>
    rcases htask i with ht | ht | ht <;> rw [hi] at ht <;> cases ht
  | recvErr i e hi ho =>
    rcases htask i with ht | ht | ht <;> rw [hi] at ht <;> cases ht
  | recvBody i env bs hi ho hd =>
    rcases htask i with ht | ht | ht <;> rw [hi] at ht <;> cases ht
  | recvWarnStr i env pre hi ho hd =>
    rcases htask i with ht | ht | ht <;> rw [hi] at ht <;> cases ht
  | recvWarnNoBody i env pre hi ho hd =>
    rcases htask i with ht | ht | ht <;> rw [hi] at ht <;> cases ht
  | recvRaised i env hi ho hd =>
    rcases htask i with ht | ht | ht <;> rw [hi] at ht <;> cases ht
  | writeOk i bs hi hw =>
    rcases htask i with ht | ht | ht <;> rw [hi] at ht <;> cases ht
  | writeFail i bs hi hw =>
    rcases htask i with ht | ht | ht <;> rw [hi] at ht <;> cases ht

/-- With a fully populated cache the short-circuit regime holds in every
reachable state. -/
theorem c2inv_reach {n : ℕ} {p : PParams n} {s : PSys n}
    (hall : ∀ i, hasEntry (p.cache0 (p.key (p.tgt i))) = true)
    (h : PReaches p (pinit p) s) : C2Inv p s := by
  induction h with
  | refl => exact ⟨rfl, rfl, fun m => Or.inl rfl⟩
  | tail hst hstep ih => exact c2inv_step hall ih hstep

/-- Claim C2: a target whose cache entry exists with non-zero size never
gets past the cache check: it is never throttled, never sent, and can
only complete as Skipped; and when every target is already cached, a
whole run issues zero transport calls and leaves the cache untouched. -/
theorem C2_cache_hit_short_circuit {n : ℕ} (p : PParams n) (s : PSys n)
    (hinj : KeyInj p) (hreach : PReaches p (pinit p) s) :
    (∀ i, hasEntry (p.cache0 (p.key (p.tgt i))) = true →
      s.task i = .pending ∨ s.task i = .cacheCheck ∨ s.task i = .completed .skipped) ∧
    ((∀ i, hasEntry (p.cache0 (p.key (p.tgt i))) = true) →
      s.sent = 0 ∧ s.cache = p.cache0) := by
  constructor
  · intro i hc0
    have hdet := pdet_reach hinj hreach i
    unfold TaskInv at hdet
    cases ht : s.task i with
    | pending => exact Or.inl rfl
    | cacheCheck => exact Or.inr (Or.inl rfl)
    | throttling =>
      rw [ht] at hdet
      rw [hdet.2] at hc0
      cases hc0
    | sending =>
      rw [ht] at hdet
      rw [hdet.2] at hc0
      cases hc0
    | writing bs =>
      rw [ht] at hdet
      rw [hdet.2.1] at hc0
      cases hc0
    | completed o =>
      rw [ht] at hdet
      rw [hc0] at hdet
      simp only [runOnePure, if_pos rfl] at hdet
      rw [hdet]
      exact Or.inr (Or.inr rfl)
  · intro hall
    have h := c2inv_reach hall hreach
    exact ⟨h.1, h.2.1⟩

/-- Each pool step strictly decreases the total remaining progress. -/
theorem pstep_measure {n : ℕ} {p : PParams n} {s s2 : PSys n}
    (hst : PStep p s s2) : pmeasure s2 < pmeasure s := by
  unfold pmeasure
  cases hst with
  | start i hi ha =>
    have hc := sum_comp_update weight s.task i TaskSt.cacheCheck
    rw [hi, show weight TaskSt.pending = 5 from rfl, show weight TaskSt.cacheCheck = 4 from rfl] at hc
    dsimp only
    omega
  | hit i hi hc0 =>
    have hc := sum_comp_update weight s.task i (TaskSt.completed Outcome.skipped)
    rw [hi, show weight TaskSt.cacheCheck = 4 from rfl, show weight (TaskSt.completed Outcome.skipped) = 0 from rfl] at hc
    dsimp only
    omega
  | miss i hi hc0 =>
    have hc := sum_comp_update weight s.task i TaskSt.throttling
    rw [hi, show weight TaskSt.cacheCheck = 4 from rfl, show weight TaskSt.throttling = 3 from rfl] at hc
    dsimp only
    omega
  | send i hi =>
    have hc := sum_comp_update weight s.task i TaskSt.sending
    rw [hi, show weight TaskSt.throttling = 3 from rfl, show weight TaskSt.sending = 2 from rfl] at hc
    dsimp only
    omega
  | recvErr i e hi ho =>
    have hc := sum_comp_update weight s.task i (TaskSt.completed (Outcome.failedTransport e))
    rw [hi, show weight TaskSt.sending = 2 from rfl, show weight (TaskSt.completed (Outcome.failedTransport e)) = 0 from rfl] at hc
    dsimp only
    omega
  | recvBody i env bs hi ho hd =>
    have hc := sum_comp_update weight s.task i (TaskSt.writing bs)
    rw [hi, show weight TaskSt.sending = 2 from rfl, show weight (TaskSt.writing bs) = 1 from rfl] at hc
    dsimp only
    omega
  | recvWarnStr i env pre hi ho hd =>
    have hc := sum_comp_update weight s.task i (TaskSt.completed (Outcome.warnedString pre))
    rw [hi, show weight TaskSt.sending = 2 from rfl, show weight (TaskSt.completed (Outcome.warnedString pre)) = 0 from rfl] at hc
    dsimp only
    omega
  | recvWarnNoBody i env pre hi ho hd =>
    have hc := sum_comp_update weight s.task i (TaskSt.completed (Outcome.warnedNoBody pre))
    rw [hi, show weight TaskSt.sending = 2 from rfl, show weight (TaskSt.completed (Outcome.warnedNoBody pre)) = 0 from rfl] at hc
    dsimp only
    omega
  | recvRaised i env hi ho hd =>
    have hc := sum_comp_update weight s.task i (TaskSt.completed Outcome.failedDecode)
    rw [hi, show weight TaskSt.sending = 2 from rfl, show weight (TaskSt.completed Outcome.failedDecode) = 0 from rfl] at hc
    dsimp only
    omega
  | writeOk i bs hi hw =>
    have hc := sum_comp_update weight s.task i (TaskSt.completed Outcome.success)
    rw [hi, show weight (TaskSt.writing bs) = 1 from rfl, show weight (TaskSt.completed Outcome.success) = 0 from rfl] at hc
    dsimp only
    omega
  | writeFail i bs hi hw =>
    have hc := sum_comp_update weight s.task i (TaskSt.completed Outcome.failedWrite)
    rw [hi, show weight (TaskSt.writing bs) = 1 from rfl, show weight (TaskSt.completed Outcome.failedWrite) = 0 from rfl] at hc
    dsimp only
    omega

/-- In a state where some task is not yet completed (and a permit is
free when everyone is pending), some step is enabled. -/
theorem pstep_exists {n : ℕ} {p : PParams n} (hconc : 0 < p.conc) (s : PSys n)
    (hsem : PSem p s) {k : Fin n} (hk : isCompleted (s.task k) = false) :
    ∃ s2, PStep p s s2 := by
  by_cases hh : ∃ j, isHolding (s.task j) = true
  · obtain ⟨j, hj⟩ := hh
    cases htj : s.task j with
    | pending => rw [htj] at hj; cases hj
    | completed o => rw [htj] at hj; cases hj
    | cacheCheck =>
      cases hc : hasEntry (s.cache (p.key (p.tgt j))) with
      | true => exact ⟨_, PStep.hit s j htj hc⟩
      | false => exact ⟨_, PStep.miss s j htj hc⟩
    | throttling => exact ⟨_, PStep.send s j htj⟩
    | sending =>
      cases ho : p.oracle (p.tgt j) with
      | error e => exact ⟨_, PStep.recvErr s j e htj ho⟩
      | ok env =>
        cases hd : decodeEnvelope env with
        | content bs => exact ⟨_, PStep.recvBody s j env bs htj ho hd⟩
        | warnString pre => exact ⟨_, PStep.recvWarnStr s j env pre htj ho hd⟩
        | warnNoBody pre => exact ⟨_, PStep.recvWarnNoBody s j env pre htj ho hd⟩
        | raised => exact ⟨_, PStep.recvRaised s j env htj ho hd⟩
    | writing bs =>
      cases hw : p.wOk (p.tgt j) with
      | true => exact ⟨_, PStep.writeOk s j bs htj hw⟩
      | false => exact ⟨_, PStep.writeFail s j bs htj hw⟩
  · push_neg at hh
    have hzero : cnt s.task isHolding = 0 := by
      refine Finset.sum_eq_zero (fun j _ => ?_)
      have hfalse : isHolding (s.task j) = false := by
        cases hb : isHolding (s.task j)
        · rfl
        · exact absurd hb (hh j)
      rw [hfalse]
      rfl
    have hav : 0 < s.avail := by
      unfold PSem at hsem
      omega
    have hkp : s.task k = .pending := by
      cases hsk : s.task k with
      | pending => rfl
      | completed o => rw [hsk] at hk; cases hk
      | cacheCheck => exact absurd (by rw [hsk]; rfl) (hh k)
      | throttling => exact absurd (by rw [hsk]; rfl) (hh k)
      | sending => exact absurd (by rw [hsk]; rfl) (hh k)
      | writing bs => exact absurd (by rw [hsk]; rfl) (hh k)
    exact ⟨_, PStep.start s k hkp hav⟩

/-- From any state satisfying the semaphore accounting, with positive
concurrency, the pool can run every task to a terminal outcome: no
single task's failure can abort the run. -/
theorem pool_completion {n : ℕ} {p : PParams n} (hconc : 0 < p.conc) :
    ∀ s : PSys n, PSem p s →
      ∃ s2, PReaches p s s2 ∧ ∀ k, isCompleted (s2.task k) = true := by
  suffices h : ∀ (m : ℕ) (s : PSys n), pmeasure s = m → PSem p s →
      ∃ s2, PReaches p s s2 ∧ ∀ k, isCompleted (s2.task k) = true by
    intro s hsem
    exact h (pmeasure s) s rfl hsem
  intro m
  induction m using Nat.strong_induction_on with
  | _ m ih =>
    intro s hm hsem
    by_cases hall : ∀ k, isCompleted (s.task k) = true
    · exact ⟨s, Relation.ReflTransGen.refl, hall⟩
    · push_neg at hall
      obtain ⟨k, hk⟩ := hall
      have hk2 : isCompleted (s.task k) = false := by
        cases hb : isCompleted (s.task k)
        · rfl
        · exact absurd hb hk
      obtain ⟨s1, h1⟩ := pstep_exists hconc s hsem hk2
      have hlt : pmeasure s1 < m := by
        rw [← hm]
        exact pstep_measure h1
      obtain ⟨s2, h2, hall2⟩ := ih (pmeasure s1) hlt s1 rfl (psem_step hsem h1)
      exact ⟨s2, Relation.ReflTransGen.head h1 h2, hall2⟩

/-- Claim C5: failure isolation.  Two runs whose transport and storage
oracles agree on target i (and whose cache starts the same there) give
task i the same outcome, whatever happens to every other target in
either run; a target that failed with a transport error is reported
with the "fail:" tag and its cause; and from any reachable state the
pool can still drive every task to its own terminal outcome, so no
single failure aborts the pool. -/
theorem C5_failure_isolation {n : ℕ} (p q : PParams n) (s1 s2 : PSys n) (i : Fin n)
    (o1 o2 : Outcome)
    (hinjp : KeyInj p) (hinjq : KeyInj q)
    (hcache : q.cache0 (q.key (q.tgt i)) = p.cache0 (p.key (p.tgt i)))
    (horacle : q.oracle (q.tgt i) = p.oracle (p.tgt i))
    (hw : q.wOk (q.tgt i) = p.wOk (p.tgt i))
    (hr1 : PReaches p (pinit p) s1) (hr2 : PReaches q (pinit q) s2)
    (h1 : s1.task i = .completed o1) (h2 : s2.task i = .completed o2)
    (hconc : 0 < p.conc) :
    o1 = o2 ∧
    (∀ e, o1 = .failedTransport e → printedTag o1 = "fail:" ∧ o1 ≠ .success) ∧
    (∃ s3, PReaches p s1 s3 ∧ ∀ k, isCompleted (s3.task k) = true) := by
  refine ⟨?_, ?_, ?_⟩
  · rw [completed_outcome hinjp hr1 h1, completed_outcome hinjq hr2 h2,
      hcache, horacle, hw]
  · intro e he
    subst he
    exact ⟨rfl, by simp⟩
  · exact pool_completion hconc s1 (psem_reach hr1)


/-- The demo run reaches the open-transport state. -/
theorem pdemo_reach3 : PReaches pdemo (pinit pdemo) pd3 := by
  have t1 : PStep pdemo (pinit pdemo) pd1 :=
    PStep.start (pinit pdemo) 0 rfl Nat.one_pos
  have t2 : PStep pdemo pd1 pd2 := PStep.miss pd1 0 rfl rfl
  have t3 : PStep pdemo pd2 pd3 := PStep.send pd2 0 rfl
  exact Relation.ReflTransGen.tail
    (Relation.ReflTransGen.tail (Relation.ReflTransGen.single t1) t2) t3

/-- The demo run completes its one task successfully and caches it. -/
theorem pdemo_reach5 : PReaches pdemo (pinit pdemo) pd5 := by
  have t4 : PStep pdemo pd3 pd4 :=
    PStep.recvBody pd3 0 (.jobj [("httpResponseBody", .jstr "aGVsbG8=")])
      (b64OrRaw "aGVsbG8=") rfl rfl rfl
  have t5 : PStep pdemo pd4 pd5 := PStep.writeOk pd4 0 (b64OrRaw "aGVsbG8=") rfl rfl
  exact Relation.ReflTransGen.tail (Relation.ReflTransGen.tail pdemo_reach3 t4) t5

/-- The cached demo run short-circuits its task as skipped. -/
theorem pcached_reach : PReaches pdemoCached (pinit pdemoCached) pc2 := by
  have t1 : PStep pdemoCached (pinit pdemoCached) pc1 :=
    PStep.start (pinit pdemoCached) 0 rfl Nat.one_pos
  have t2 : PStep pdemoCached pc1 pc2 := PStep.hit pc1 0 rfl rfl
  exact Relation.ReflTransGen.tail (Relation.ReflTransGen.single t1) t2

/-- Witness for C6: in the demo run, with its transport call open, no
more than the configured concurrency of calls is open. -/
theorem C6_concurrency_bound_witness :
    cnt pd3.task isSending ≤ pdemo.conc ∧ cnt pd3.task isHolding ≤ pdemo.conc :=
  C6_concurrency_bound pdemo pd3 pdemo_reach3

/-- Witness for C2: in the fully cached demo run the task has
short-circuited as Skipped and nothing was sent. -/
theorem C2_cache_hit_short_circuit_witness :
    (∀ i, hasEntry (pdemoCached.cache0 (pdemoCached.key (pdemoCached.tgt i))) = true →
      pc2.task i = .pending ∨ pc2.task i = .cacheCheck ∨
        pc2.task i = .completed .skipped) ∧
    ((∀ i, hasEntry (pdemoCached.cache0 (pdemoCached.key (pdemoCached.tgt i))) = true) →
      pc2.sent = 0 ∧ pc2.cache = pdemoCached.cache0) :=
  C2_cache_hit_short_circuit pdemoCached pc2 (fun a b _ => Subsingleton.elim a b)
    pcached_reach

/-- Witness for C5: the demo run, compared with itself, gives its task
the same outcome, and the pool can finish from the completed state. -/
theorem C5_failure_isolation_witness :
    Outcome.success = Outcome.success ∧
    (∀ e, Outcome.success = .failedTransport e →
      printedTag Outcome.success = "fail:" ∧ Outcome.success ≠ .success) ∧
    (∃ s3, PReaches pdemo pd5 s3 ∧ ∀ k, isCompleted (s3.task k) = true) :=
  C5_failure_isolation pdemo pdemo pd5 pd5 0 Outcome.success Outcome.success
    (fun a b _ => Subsingleton.elim a b) (fun a b _ => Subsingleton.elim a b)
    rfl rfl rfl pdemo_reach5 pdemo_reach5 rfl rfl Nat.one_pos

end ZyteFetch
